import Mathlib

/-!
Verification development for the bank-statement analysis front-end
(`streamlit_app.py`). The result-reconciliation and presentation layer is
embedded shallowly: Python values become the inductive `Val`, dicts become
association lists in insertion order, Python floats are modelled as exact
rationals (`Rat`), and an uncaught Python exception is modelled as
`Except.error`. Streamlit display calls (`st.error`, `st.write`, ...) become
constructors of the `Item` type, so a render pass is a function from the
decoded response to `Except String (List Item)`.
-/

namespace BSA

/-! ## Characters and digit strings -/

/-- ASCII decimal digit test (model of the regex class `\d` and of the digits
accepted by `float`; non-ASCII unicode digits are out of the modelled scope). -/
def isDigitC (c : Char) : Bool := 48 ≤ c.toNat && c.toNat ≤ 57

/-- The character for a single decimal digit `n < 10`. -/
def digitChar (n : Nat) : Char := Char.ofNat (48 + n)

/-- Numeric value of a digit string, most significant digit first. -/
def digitsVal (l : List Char) : Nat := l.foldl (fun a c => 10 * a + (c.toNat - 48)) 0

/-- Decimal rendering of a natural number, fuel-indexed so that it is
structurally recursive (the fuel is always instantiated with the number
itself, which bounds the recursion depth). -/
def natRenderF : Nat → Nat → List Char
  | 0, n => [digitChar n]
  | f + 1, n => if n < 10 then [digitChar n] else natRenderF f (n / 10) ++ [digitChar (n % 10)]

/-- Decimal rendering of a natural number (model of Python's `str`/`format`
integer rendering). -/
def natRender (n : Nat) : List Char := natRenderF n n

def natStr (n : Nat) : String := String.mk (natRender n)

/-- Python `str` of an `int`. -/
def intStr (n : Int) : String := (if n < 0 then "-" else "") ++ natStr n.natAbs

/-- Two-digit zero-padded rendering, for the cents part of `"%.2f"`. -/
def pad2 (n : Nat) : List Char := [digitChar (n / 10), digitChar (n % 10)]

/-- Split a character list into its maximal leading digit run and the rest
(the behaviour of a greedy `\d+`/`\d*` at the current position). -/
def digitSpan : List Char → List Char × List Char
  | [] => ([], [])
  | c :: r =>
    if isDigitC c then
      let p := digitSpan r
      (c :: p.1, p.2)
    else ([], c :: r)

def allDigitsB (l : List Char) : Bool := l.all isDigitC

/-- Whether a character list does not start with a digit (vacuously true for
the empty list); the shape of the rest after a maximal digit run. -/
def headNotDigit : List Char → Bool
  | [] => true
  | c :: _ => !isDigitC c

/-! ## Two-decimal formatting and float parsing (exact-rational model)

Python floats are modelled as exact rationals. `"%.2f"` rounding is modelled
as round-half-to-even on the rational value (IEEE printing rounds the binary
value; on the inputs relevant here the two agree, and no claim depends on
tie behaviour). `float(...)` string parsing is modelled for the numeric
grammar `sign? (digits (. digits?)? | . digits) ((e|E) sign? digits)?`;
`inf`/`nan`, underscores and surrounding whitespace are outside the modelled
scope. -/

/-- Round `100 * q` (the cents of `"%.2f"`) to the nearest integer, ties to
even, computed directly on the numerator and denominator with integer
arithmetic so that the definition reduces in the kernel. -/
def round2 (q : Rat) : Int :=
  let d : Int := (q.den : Int)
  let n : Int := q.num * 100
  let f : Int := n.ediv d
  let r : Int := n.emod d
  if 2 * r < d then f
  else if d < 2 * r then f + 1
  else if f % 2 = 0 then f else f + 1

/-- Character-list form of `"%.2f"` applied to an exact rational. -/
def format2Chars (q : Rat) : List Char :=
  let n : Int := round2 q
  let a : Nat := n.natAbs
  (if n < 0 then ['-'] else []) ++ natRender (a / 100) ++ '.' :: pad2 (a % 100)

/-- Model of `f"{x:.2f}"`. -/
def format2 (q : Rat) : String := String.mk (format2Chars q)

/-- Value of an integer-part/fraction-part digit pair (built with `mkRat`,
which reduces in the kernel, rather than rational addition and division). -/
def mantissa (ip fp : List Char) : Rat :=
  mkRat ((digitsVal ip * 10 ^ fp.length + digitsVal fp : Nat) : Int) (10 ^ fp.length)

def parseExpDigits (l : List Char) : Option Int :=
  if l ≠ [] ∧ allDigitsB l = true then some (digitsVal l : Int) else none

def parseExpPart : List Char → Option Int
  | '+' :: r => parseExpDigits r
  | '-' :: r => (parseExpDigits r).map (fun e => -e)
  | l => parseExpDigits l

def applyExp (m : Rat) (e : Int) : Rat := m * (10 : Rat) ^ e

/-- After the integer part and the dot: fraction digits `fp`, then either
the end of the input or an exponent part. -/
def parseFrac (ip fp : List Char) : List Char → Option Rat
  | [] => if ip.isEmpty && fp.isEmpty then none else some (mantissa ip fp)
  | c :: r4 =>
    if ip.isEmpty && fp.isEmpty then none
    else if c = 'e' ∨ c = 'E' then (parseExpPart r4).map (applyExp (mantissa ip fp))
    else none

/-- After the integer-part digits `ip`: end of input, a dot, or an
exponent. -/
def parseTail (ip : List Char) : List Char → Option Rat
  | [] => if ip.isEmpty then none else some (mantissa ip [])
  | '.' :: r2 => parseFrac ip (digitSpan r2).1 (digitSpan r2).2
  | c :: r4 =>
    if (c = 'e' ∨ c = 'E') ∧ ¬ip.isEmpty then (parseExpPart r4).map (applyExp (mantissa ip []))
    else none

/-- Parse an unsigned float literal (full consumption required). -/
def parseUnsigned (l : List Char) : Option Rat :=
  parseTail (digitSpan l).1 (digitSpan l).2

/-- Model of Python `float(s)` on a string, as an optional exact rational. -/
def parseFloatChars : List Char → Option Rat
  | [] => none
  | c :: r =>
    if c = '+' then parseUnsigned r
    else if c = '-' then (parseUnsigned r).map (fun q => -q)
    else parseUnsigned (c :: r)

def parseFloat (s : String) : Option Rat := parseFloatChars s.data

/-- Model of `s.replace(',', '')`. -/
def stripCommas (s : String) : String := String.mk (s.data.filter (fun c => c ≠ ','))

/-! ## JSON-like values (the decoded response payload) -/

/-- A decoded JSON value as Python sees it: strings, booleans, ints, floats
(exact-rational model), `None`, lists, and dicts in insertion order. -/
inductive Val where
  | str (s : String)
  | bool (b : Bool)
  | int (n : Int)
  | num (q : Rat)
  | null
  | list (vs : List Val)
  | obj (kvs : List (String × Val))
deriving Repr

/-- Python truthiness (`bool(v)`). -/
def truthy : Val → Bool
  | .str s => s ≠ ""
  | .bool b => b
  | .int n => n ≠ 0
  | .num q => q ≠ 0
  | .null => false
  | .list vs => !vs.isEmpty
  | .obj kvs => !kvs.isEmpty

/-- Python `v == s` for a string literal `s`: true only when `v` is that
string (values of other types never equal a `str`). -/
def valEqStr (v : Val) (s : String) : Bool :=
  match v with
  | .str t => t == s
  | _ => false

/-- Left-pad a digit list with zeros to width `k`. -/
def padLeft (k : Nat) (l : List Char) : List Char :=
  List.replicate (k - l.length) '0' ++ l

/-- Model of Python `repr` on a float, restricted to values with a finite
decimal expansion of at most 17 digits (truncation otherwise; binary
shortest-round-trip printing is outside the modelled scope). Computed on
the numerator and denominator with integer arithmetic. -/
def pyFloatRepr (q : Rat) : String :=
  let sign := if q.num < 0 then "-" else ""
  let a := q.num.natAbs
  match (List.range 18).find? (fun k => a * 10 ^ k % q.den == 0) with
  | some 0 => sign ++ natStr (a / q.den) ++ ".0"
  | some (k + 1) =>
    let m := a * 10 ^ (k + 1) / q.den
    sign ++ natStr (m / 10 ^ (k + 1)) ++ "." ++
      String.mk (padLeft (k + 1) (natRender (m % 10 ^ (k + 1))))
  | none =>
    let m := a * 10 ^ (17 : Nat) / q.den
    sign ++ natStr (m / 10 ^ (17 : Nat)) ++ "." ++
      String.mk (padLeft 17 (natRender (m % 10 ^ (17 : Nat))))

def joinComma : List String → String
  | [] => ""
  | [s] => s
  | s :: r => s ++ ", " ++ joinComma r

/-- Python `repr(v)` (string elements of containers are quoted). -/
def pyRepr : Val → String
  | .str s => "'" ++ s ++ "'"
  | .bool b => if b then "True" else "False"
  | .int n => intStr n
  | .num q => pyFloatRepr q
  | .null => "None"
  | .list vs => "[" ++ joinComma (vs.attach.map (fun x => pyRepr x.1)) ++ "]"
  | .obj kvs =>
    "\x7b" ++ joinComma (kvs.attach.map (fun kv => "'" ++ kv.1.1 ++ "': " ++ pyRepr kv.1.2)) ++ "\x7d"
decreasing_by
  · have := List.sizeOf_lt_of_mem x.2
    simp_wf
    omega
  · obtain ⟨⟨k, v2⟩, hm⟩ := kv
    have := List.sizeOf_lt_of_mem hm
    simp only [Prod.mk.sizeOf_spec] at this
    simp_wf
    omega

/-- Python `str(v)` (like `repr` except that a top-level string is itself;
scalar cases are inlined so that they reduce definitionally). -/
def pyStr : Val → String
  | .str s => s
  | .bool b => if b then "True" else "False"
  | .int n => intStr n
  | .num q => pyFloatRepr q
  | .null => "None"
  | .list vs => pyRepr (.list vs)
  | .obj kvs => pyRepr (.obj kvs)

/-- Model of Python `float(v)` on an arbitrary value; `none` models the
raised `ValueError`/`TypeError`. `bool` is an `int` subclass in Python. -/
def pyFloatOf : Val → Option Rat
  | .num q => some q
  | .int n => some (n : Rat)
  | .bool b => some (if b then 1 else 0)
  | .str s => parseFloat s
  | _ => none

/-! ## Association lists: Python dicts in insertion order -/

/-- The payload of a decoded JSON object. -/
abbrev AList := List (String × Val)

/-- `k in d`. -/
def alMem : AList → String → Bool
  | [], _ => false
  | kv :: t, k => kv.1 == k || alMem t k

/-- `d.get(k)` without default (first match; dicts have unique keys). -/
def alGet : AList → String → Option Val
  | [], _ => none
  | kv :: t, k => if kv.1 == k then some kv.2 else alGet t k

/-- `d[k] = v`: replace in place when the key exists, else append
(Python dicts keep insertion order). -/
def alSet (l : AList) (k : String) (v : Val) : AList :=
  if alMem l k then l.map (fun kv => if kv.1 == k then (k, v) else kv) else l ++ [(k, v)]

/-- `d.get(k, default)` on a value expected to be a dict; a non-dict raises
`AttributeError`. -/
def vGetD (v : Val) (k : String) (d : Val) : Except String Val :=
  match v with
  | .obj kvs => .ok ((alGet kvs k).getD d)
  | _ => .error "AttributeError"

/-- Python iteration `for x in v` (lists yield elements, strings yield
characters, dicts yield keys; other types raise `TypeError`). -/
def iterVal : Val → Except String (List Val)
  | .list vs => .ok vs
  | .str s => .ok (s.data.map (fun c => .str (String.mk [c])))
  | .obj kvs => .ok (kvs.map (fun kv => .str kv.1))
  | _ => .error "TypeError"

/-! ## Currency normalizer (`format_currency`, `format_text_with_currency`) -/

/-- Model of `format_currency` (source lines 20-31): numbers (`bool`
included, being an `int` subclass) format to two decimals; strings are
comma-stripped and parsed, formatting on success and returned unchanged on
failure; any other value is returned unchanged. -/
def formatCurrency : Val → Val
  | .int n => .str (format2 (n : Rat))
  | .num q => .str (format2 q)
  | .bool b => .str (format2 (if b then 1 else 0))
  | .str s =>
    match parseFloat (stripCommas s) with
    | some q => .str (format2 q)
    | none => .str s
  | v => v

/-- One attempt of the pattern `(\d+\.\d{3,})` at the current position:
when the regex matches (a digit run, a dot, then three or more digits),
returns the two-decimal replacement text and the remainder after the match;
`none` when the position does not start a match (the scanner then keeps the
character and advances by one, like `re.sub`). -/
def scanStep (c : Char) (rest : List Char) : Option (List Char × List Char) :=
  if isDigitC c then
    match digitSpan (c :: rest) with
    | (ds, rest1) =>
      match rest1 with
      | [] => none
      | d :: r2 =>
        if d = '.' then
          match digitSpan r2 with
          | (fs, r3) =>
            if 3 ≤ fs.length then some (format2Chars (mantissa ds fs), r3) else none
        else none
  else none

/-- The scanner of `format_text_with_currency` (source lines 33-48):
`re.sub` with pattern `(\d+\.\d{3,})`, each match reformatted to two
decimals. Fuel-indexed for structural recursion; the fuel is instantiated
with the list length, which bounds the scan. -/
def ftwcScanF : Nat → List Char → List Char
  | 0, l => l
  | _ + 1, [] => []
  | f + 1, c :: rest =>
    match scanStep c rest with
    | some (rep, r3) => rep ++ ftwcScanF f r3
    | none => c :: ftwcScanF f rest

def ftwcScan (l : List Char) : List Char := ftwcScanF l.length l

/-- `format_text_with_currency` on a string. -/
def ftwcStr (s : String) : String := String.mk (ftwcScan s.data)

/-- `format_text_with_currency` on an arbitrary value: non-strings are
returned unchanged. -/
def formatTextWithCurrency : Val → Val
  | .str s => .str (ftwcStr s)
  | v => v

/-! ## Field catalog (`get_friendly_field_name`, orderings, exclusions) -/

def fieldMapping : List (String × String) :=
  [("boundAmountDependant_PKR", "Living Expense Of Dependent In PKR"),
   ("boundAmountStudent_PKR", "Living Expense of Student In PKR"),
   ("dependant", "Dependant"),
   ("exchangeRateGBP", "Exchange Rate GBP After Addition"),
   ("locationStatus", "Location Status"),
   ("tuitionFees_PKR", "Tuition Fees In PKR"),
   ("universityName", "University Name"),
   ("exchangeRateGBPOriginal", "Exchange Rate GBP Original From OANDA"),
   ("exchangeRateAUS", "Exchange Rate AUD After Addition"),
   ("exchangeRateAUSOriginal", "Exchange Rate AUD Original From OANDA"),
   ("durationToCheck", "Duration To Check"),
   ("livingExpense_PKR", "Living Expense In PKR"),
   ("oneYearFees_PKR", "One Year Fees In PKR"),
   ("travelExpense_PKR", "Travel Expense In PKR")]

/-- `get_friendly_field_name` (source lines 72-95): the friendly label for a
known key, the raw key otherwise. -/
def getFriendlyFieldName (f : String) : String :=
  (((fieldMapping.find? (fun kv => kv.1 == f)).map (fun kv => kv.2)).getD f)

def ukFieldOrder : List String :=
  ["exchangeRateGBPOriginal", "exchangeRateGBP", "dependant", "boundAmountStudent_PKR",
   "boundAmountDependant_PKR", "locationStatus", "tuitionFees_PKR", "universityName"]

def ausFieldOrder : List String :=
  ["exchangeRateAUSOriginal", "exchangeRateAUS", "durationToCheck", "livingExpense_PKR",
   "oneYearFees_PKR", "travelExpense_PKR"]

def excludedFields : List String := ["totalAmountToCheck", "insideLondon"]

/-- ASCII model of `str.lower`. -/
def lowerChar (c : Char) : Char :=
  if 65 ≤ c.toNat ∧ c.toNat ≤ 90 then Char.ofNat (c.toNat + 32) else c

def toLowerStr (s : String) : String := String.mk (s.data.map lowerChar)

/-- `location.lower() in ["uk", "united kingdom"]` (source line 208). -/
def isUk (location : String) : Bool :=
  toLowerStr location == "uk" || toLowerStr location == "united kingdom"

/-- `location.lower() in ["australia", "aus"]` (source line 209). -/
def isAustralia (location : String) : Bool :=
  toLowerStr location == "australia" || toLowerStr location == "aus"

/-! ## Exchange-rate reconciler -/

/-- The reverse of the buffer transformation: `adjustedRate / (1 + buffer)`
(source lines 213, 218). -/
def deriveOriginalRate (adjustedRate buffer : Rat) : Rat := adjustedRate / (1 + buffer)

/-- Source lines 204-219: copy the details mapping and, for the matched
jurisdiction with a positive buffer, insert the synthetic original-rate key.
`float(...)` on an unparseable value raises, modelled as `.error`. -/
def detailsWithOriginal (details : AList) (p : Rat) (location : String) :
    Except String AList :=
  if isUk location = true ∧ alMem details "exchangeRateGBP" = true ∧ 0 < p then
    match pyFloatOf ((alGet details "exchangeRateGBP").getD .null) with
    | some r => .ok (alSet details "exchangeRateGBPOriginal" (.num (deriveOriginalRate r p)))
    | none => .error "ValueError"
  else if isAustralia location = true ∧ alMem details "exchangeRateAUS" = true ∧ 0 < p then
    match pyFloatOf ((alGet details "exchangeRateAUS").getD .null) with
    | some r => .ok (alSet details "exchangeRateAUSOriginal" (.num (deriveOriginalRate r p)))
    | none => .error "ValueError"
  else .ok details

/-! ## Calculation-details renderer (source lines 194-305) -/

/-- Per-field display value: the `dependant` key renders as Yes/No, all
other values go through `format_text_with_currency(str(value))`. -/
def formatCalcValue (key : String) (v : Val) : String :=
  if key == "dependant" then (if truthy v then "Yes" else "No")
  else ftwcStr (pyStr v)

/-- The full body of the calculation-details expander, returning the emitted
`(key, formatted value)` pairs in order. It contains three loops, exactly as
the source does: the ordered pass (lines 247-265), the leftover pass (lines
268-284), and the duplicated trailing leftover pass (lines 289-305), whose
exclusion test is only `key != "insideLondon"`. -/
def renderCalcDetails (details : AList) (p : Rat) (location : String) :
    Except String (List (String × String)) :=
  let hasDependant := truthy ((alGet details "dependant").getD (.bool false))
  match detailsWithOriginal details p location with
  | .error e => .error e
  | .ok dwo =>
    let fieldOrder := if isUk location then ukFieldOrder else ausFieldOrder
    let suppress := fun (key : String) =>
      isUk location && !hasDependant && key == "boundAmountDependant_PKR"
    let out1 := fieldOrder.filterMap (fun key =>
      if alMem dwo key && !(excludedFields.contains key) then
        if suppress key then none
        else some (key, formatCalcValue key ((alGet dwo key).getD .null))
      else none)
    let out2 := dwo.filterMap (fun kv =>
      if !(fieldOrder.contains kv.1) && !(excludedFields.contains kv.1) then
        if suppress kv.1 then none
        else some (kv.1, formatCalcValue kv.1 kv.2)
      else none)
    let out3 := dwo.filterMap (fun kv =>
      if !(fieldOrder.contains kv.1) && kv.1 != "insideLondon" then
        if suppress kv.1 then none
        else some (kv.1, formatCalcValue kv.1 kv.2)
      else none)
    .ok (out1 ++ out2 ++ out3)

/-! ## Transaction timeline builder (source lines 307-412) -/

/-- Split a character list on `'-'`. -/
def splitDash : List Char → List (List Char)
  | [] => [[]]
  | c :: r =>
    match splitDash r with
    | [] => [[]]
    | g :: gs => if c = '-' then [] :: g :: gs else (c :: g) :: gs

def isLeapYear (y : Nat) : Bool := y % 4 == 0 && (y % 100 != 0 || y % 400 == 0)

def daysInMonth (y m : Nat) : Nat :=
  if m = 2 then (if isLeapYear y then 29 else 28)
  else if m = 4 ∨ m = 6 ∨ m = 9 ∨ m = 11 then 30
  else 31

/-- Model of `datetime.strptime(s, "%Y-%m-%d")`: a four-digit year, a one- or
two-digit month and day, and a calendar-validity check; `none` models the
raised `ValueError`. -/
def parseDateYMD (s : String) : Option (Nat × Nat × Nat) :=
  match splitDash s.data with
  | [y, m, d] =>
    if y.length = 4 ∧ allDigitsB y = true ∧
        1 ≤ m.length ∧ m.length ≤ 2 ∧ allDigitsB m = true ∧
        1 ≤ d.length ∧ d.length ≤ 2 ∧ allDigitsB d = true then
      let yv := digitsVal y
      let mv := digitsVal m
      let dv := digitsVal d
      if 1 ≤ yv ∧ 1 ≤ mv ∧ mv ≤ 12 ∧ 1 ≤ dv ∧ dv ≤ daysInMonth yv mv then
        some (yv, mv, dv)
      else none
    else none
  | _ => none

/-- Lexicographic strict order on dates. -/
def dateLt (a b : Nat × Nat × Nat) : Bool :=
  a.1 < b.1 || (a.1 == b.1 && (a.2.1 < b.2.1 || (a.2.1 == b.2.1 && a.2.2 < b.2.2)))

/-- A point of the balance chart: date, balance, transaction type, amount. -/
abbrev ChartPoint := (Nat × Nat × Nat) × Rat × Val × Val

/-- Stable insertion for the date sort (`df.sort_values('Date')`): a new
point goes after every strictly smaller point and before equal ones only
when it precedes them in the input. -/
def insertPoint (p : ChartPoint) : List ChartPoint → List ChartPoint
  | [] => [p]
  | q :: qs => if dateLt q.1 p.1 then q :: insertPoint p qs else p :: q :: qs

def sortPoints : List ChartPoint → List ChartPoint
  | [] => []
  | p :: ps => insertPoint p (sortPoints ps)

def zip4 : List (Nat × Nat × Nat) → List Rat → List Val → List Val → List ChartPoint
  | d :: ds, b :: bs, t :: ts, a :: as_ => (d, b, t, a) :: zip4 ds bs ts as_
  | _, _, _, _ => []

/-- The per-record loop of the timeline builder (source lines 321-344),
producing the four parallel lists `dates`, `balances`, `transaction_types`,
`amounts`. The date is appended before the balance parse is attempted, so a
record with a good date and a bad balance leaves an orphan date behind; a
non-dict record raises (`.get` on it) before the `try` block. -/
def timelineLists : List Val →
    Except String (List (Nat × Nat × Nat) × List Rat × List Val × List Val)
  | [] => .ok ([], [], [], [])
  | t :: ts =>
    match t with
    | .obj kvs =>
      let dateV := (alGet kvs "transactionDate").getD (.str "")
      let balV := (alGet kvs "totalBalanceInAccount").getD (.str "0")
      let tyV := (alGet kvs "transactionType").getD (.str "Unknown")
      let amV := (alGet kvs "transactionAmount").getD (.str "0")
      match timelineLists ts with
      | .error e => .error e
      | .ok (ds, bs, tys, ams) =>
        if truthy dateV then
          match dateV with
          | .str s =>
            match parseDateYMD s with
            | some d =>
              match parseFloat (stripCommas (pyStr balV)) with
              | some b => .ok (d :: ds, b :: bs, tyV :: tys, amV :: ams)
              | none => .ok (d :: ds, bs, tys, ams)
            | none => .ok (ds, bs, tys, ams)
          | _ => .ok (ds, bs, tys, ams)
        else .ok (ds, bs, tys, ams)
    | _ => .error "AttributeError"

/-! ## Result presenter (`display_analysis_results`) -/

/-- One Streamlit display call. -/
inductive Item where
  | err (s : String)
  | success (s : String)
  | info (s : String)
  | write (s : String)
  | markdown (s : String)
  | expander (s : String)
  | chart (points : List ChartPoint)
  | chartWithBound (points : List ChartPoint) (bound : Rat)
deriving Repr

/-- The fund-maintenance block (source lines 115-124). -/
def fundItems (fc : Val) : Except String (List Item) :=
  match fc with
  | .obj kvs =>
    if truthy ((alGet kvs "isMaintained").getD (.bool false)) then
      .ok (Item.success "**Fund Maintenance: The amount in bank account is sufficient**" ::
        (if alMem kvs "finalSummary" then
          [Item.write (pyStr (formatTextWithCurrency ((alGet kvs "finalSummary").getD .null)))]
         else []))
    else .ok [Item.err "**Fund Maintenance: The amount in bank account is not sufficient**"]
  | _ => .error "AttributeError"

/-- The `Information` section (source lines 104-173); `now` stands for
`datetime.now().strftime(...)`. -/
def infoItems (info : Val) (now : String) : Except String (List Item) :=
  match info with
  | .obj kvs => do
    let verdict := (alGet kvs "verdict").getD (.str "Unknown")
    let verdictItem :=
      if valEqStr verdict "Original" then Item.success ("🟢 **Verdict: " ++ pyStr verdict ++ "**")
      else Item.err ("🔴 **Verdict: " ++ pyStr verdict ++ "**")
    let fund ←
      if alMem kvs "fundMaintenanceCheck" then
        fundItems ((alGet kvs "fundMaintenanceCheck").getD .null)
      else pure []
    let rateInfo := Item.info ("📈 **Exchange Rate Source:** OANDA  \n🕐 **Extract Date & Time:** " ++ now)
    let col1 :=
      [Item.info ("**Account Type:** " ++ pyStr ((alGet kvs "accountType").getD (.str "N/A"))),
       Item.info ("**Statement Period:** " ++ pyStr ((alGet kvs "statementPeriod").getD (.str "N/A"))),
       Item.info ("**Duration:** " ++ pyStr ((alGet kvs "statementPeriodDuration").getD (.str "N/A")))]
    let boundAmount := (alGet kvs "boundAmount").getD (.str "N/A")
    let boundShown := if valEqStr boundAmount "N/A" then boundAmount else formatCurrency boundAmount
    let col2 :=
      Item.info ("**Bound Amount:** " ++ pyStr boundShown) ::
      (if alMem kvs "bankStatementAge" then
        [Item.info ("**Statement Age:** " ++ pyStr ((alGet kvs "bankStatementAge").getD .null))]
       else [])
    let expl :=
      [Item.write "**Explanation:**",
       Item.write (pyStr (formatTextWithCurrency
         ((alGet kvs "explanation").getD (.str "No explanation provided"))))]
    let docs ←
      if alMem kvs "availableDocuments" then do
        let l ← iterVal ((alGet kvs "availableDocuments").getD .null)
        pure (Item.write "**Available Documents:**" ::
          l.map (fun d => Item.write ("• " ++ pyStr d)))
      else pure []
    let auths ←
      if alMem kvs "validAuthentications" ∧
          truthy ((alGet kvs "validAuthentications").getD .null) = true then do
        let l ← iterVal ((alGet kvs "validAuthentications").getD .null)
        let lines ← l.mapM (fun auth => do
          let el ← vGetD auth "element" (.str "N/A")
          let stt ← vGetD auth "status" (.str "N/A")
          pure (Item.write ("✅ " ++ pyStr el ++ ": " ++ pyStr stt)))
        pure (Item.success "**Valid Authentications:**" :: lines)
      else pure []
    let supported ←
      if alMem kvs "supportedTransactions" ∧
          truthy ((alGet kvs "supportedTransactions").getD .null) = true then do
        let l ← iterVal ((alGet kvs "supportedTransactions").getD .null)
        let lines ← l.mapM (fun trans => do
          let det ← vGetD trans "transactionDetail" (.str "N/A")
          let sup ← vGetD trans "supportType" (.str "N/A")
          pure (Item.write ("• " ++ pyStr det ++ " - " ++ pyStr sup)))
        pure (Item.write "**Supported Transactions:**" :: lines)
      else pure []
    pure ([verdictItem] ++ fund ++ [rateInfo] ++ col1 ++ col2 ++ expl ++ docs ++ auths ++ supported)
  | _ => .error "AttributeError"

/-- One entry of the `Issues` loop (source lines 178-191). -/
def issueItems (issue : Val) : Except String (List Item) := do
  let ty ← vGetD issue "type" (.str "Unknown")
  let isb ← vGetD issue "issue" (.str "Unknown")
  let header := Item.expander ("❌ " ++ pyStr ty ++ " - " ++ pyStr isb)
  let msg ← vGetD issue "message" (.str "No message")
  let msgItem := Item.write (pyStr (formatTextWithCurrency msg))
  match issue with
  | .obj kvs =>
    if alMem kvs "details" then
      match (alGet kvs "details").getD .null with
      | .obj dkvs =>
        .ok (header :: msgItem :: Item.write "**Details:**" ::
          dkvs.filterMap (fun kv =>
            match kv.2 with
            | .null => none
            | v => some (Item.write ("• " ++ kv.1 ++ ": " ++ ftwcStr (pyStr v)))))
      | _ => .error "AttributeError"
    else .ok [header, msgItem]
  | _ => .error "AttributeError"

/-- The chart block and transaction list of the `allTransactions` expander
(source lines 309-412). A dates/balances length mismatch models the
`ValueError` that `pd.DataFrame` raises on unequal column lengths. -/
def transactionsItems (transactions : List Val) (result : AList) :
    Except String (List Item) := do
  let header := [Item.expander "📋 All Transactions",
    Item.write ("Total transactions: " ++ natStr transactions.length)]
  let chartItems ←
    if transactions.isEmpty then pure []
    else do
      let lists ← timelineLists transactions
      match lists with
      | (ds, bs, tys, ams) =>
        if ¬ds.isEmpty ∧ ¬bs.isEmpty then
          if ds.length = bs.length ∧ bs.length = tys.length ∧ tys.length = ams.length then
            let pts := sortPoints (zip4 ds bs tys ams)
            let withBound :=
              match alGet result "Information" with
              | some (.obj ikvs) =>
                match alGet ikvs "boundAmount" with
                | some (.int n) => [Item.chartWithBound pts (n : Rat)]
                | some (.num q) => [Item.chartWithBound pts q]
                | some (.bool b) => [Item.chartWithBound pts (if b then 1 else 0)]
                | _ => []
              | _ => []
            pure ([Item.chart pts] ++ withBound)
          else .error "ValueError"
        else pure []
  let detailLines ← transactions.mapM (fun trans => do
    let dt ← vGetD trans "transactionDate" (.str "N/A")
    let ty ← vGetD trans "transactionType" (.str "N/A")
    let am ← vGetD trans "transactionAmount" (.str "N/A")
    let bal ← vGetD trans "totalBalanceInAccount" (.str "N/A")
    pure (Item.write (pyStr dt ++ " - " ++ pyStr ty ++ " - Amount: " ++
      pyStr (formatCurrency am) ++ " - Balance: " ++ pyStr (formatCurrency bal))))
  pure (header ++ chartItems ++ [Item.markdown "---", Item.write "**Transaction Details:**"] ++
    detailLines)

/-- `display_analysis_results` (source lines 97-412): the full presenter.
A response carrying an `error` key short-circuits everything else (lines
99-101). An uncaught Python exception is modelled as `.error`. -/
def displayAnalysisResults (result : AList) (exchangeRatePlus : Rat) (location : String)
    (now : String) : Except String (List Item) :=
  if alMem result "error" then
    .ok [Item.err ("Error: " ++ pyStr ((alGet result "error").getD .null))]
  else do
    let infoPart ←
      if alMem result "Information" then infoItems ((alGet result "Information").getD .null) now
      else pure []
    let issuesPart ←
      if alMem result "Issues" ∧ truthy ((alGet result "Issues").getD .null) = true then do
        let l ← iterVal ((alGet result "Issues").getD .null)
        let blocks ← l.mapM issueItems
        pure (Item.err "**Issues Found:**" :: blocks.flatten)
      else pure []
    let calcPart ←
      if alMem result "calculationDetails" then
        match (alGet result "calculationDetails").getD .null with
        | .obj details => do
          let pairs ← renderCalcDetails details exchangeRatePlus location
          pure ([Item.expander "📊 Calculation Details", Item.markdown "---"] ++
            pairs.map (fun kv =>
              Item.write ("**" ++ getFriendlyFieldName kv.1 ++ ":** " ++ kv.2)))
        | _ => .error "AttributeError"
      else pure []
    let transPart ←
      if alMem result "allTransactions" ∧
          truthy ((alGet result "allTransactions").getD .null) = true then
        match (alGet result "allTransactions").getD .null with
        | .list l => transactionsItems l result
        | _ => .error "TypeError"
      else pure []
    pure (infoPart ++ issuesPart ++ calcPart ++ transPart)

/-! # Theorems -/

/-! ## Association-list lemmas -/

theorem alMem_of_alGet {l : AList} {k : String} {v : Val} (h : alGet l k = some v) :
    alMem l k = true := by
  induction l with
  | nil => simp [alGet] at h
  | cons kv t ih =>
    by_cases hk : (kv.1 == k) = true
    · simp [alMem, hk]
    · simp only [alGet, if_neg hk] at h
      simp [alMem, hk, ih h]

theorem alGet_of_alMem {l : AList} {k : String} (h : alMem l k = true) :
    ∃ v, alGet l k = some v := by
  induction l with
  | nil => simp [alMem] at h
  | cons kv t ih =>
    by_cases hk : (kv.1 == k) = true
    · exact ⟨kv.2, by simp [alGet, hk]⟩
    · simp only [alMem, Bool.or_eq_true] at h
      obtain ⟨v, hv⟩ := ih (h.resolve_left hk)
      exact ⟨v, by simp [alGet, hk, hv]⟩

theorem alMem_exists_entry {l : AList} {k : String} (h : alMem l k = true) :
    ∃ v, (k, v) ∈ l := by
  induction l with
  | nil => simp [alMem] at h
  | cons kv t ih =>
    by_cases hk : (kv.1 == k) = true
    · refine ⟨kv.2, ?_⟩
      have h1 : kv.1 = k := by simpa using hk
      simp [← h1]
    · simp only [alMem, Bool.or_eq_true] at h
      obtain ⟨v, hv⟩ := ih (h.resolve_left hk)
      exact ⟨v, List.mem_cons_of_mem _ hv⟩

theorem alMem_alSet_self (l : AList) (k : String) (v : Val) :
    alMem (alSet l k v) k = true := by
  unfold alSet
  by_cases h : alMem l k = true
  · rw [if_pos h]
    induction l with
    | nil => simp [alMem] at h
    | cons kv t ih =>
      by_cases hk : (kv.1 == k) = true
      · rw [List.map_cons, if_pos hk]
        simp [alMem]
      · have hk' : (kv.1 == k) = false := by simpa using hk
        simp only [alMem, Bool.or_eq_true] at h
        have := ih (h.resolve_left hk)
        rw [List.map_cons, if_neg hk]
        simp only [alMem, hk', Bool.false_or]
        exact this
  · rw [if_neg h]
    induction l with
    | nil => simp [alMem]
    | cons kv t ih =>
      have hk : ¬(kv.1 == k) = true := fun hc => h (by simp [alMem, hc])
      have ht : ¬alMem t k = true := fun hc => h (by simp [alMem, hc])
      simp only [List.cons_append, alMem, Bool.or_eq_true]
      exact Or.inr (by simpa [alMem] using ih ht)

theorem alGet_alSet_self (l : AList) (k : String) (v : Val) :
    alGet (alSet l k v) k = some v := by
  unfold alSet
  by_cases h : alMem l k = true
  · rw [if_pos h]
    induction l with
    | nil => simp [alMem] at h
    | cons kv t ih =>
      by_cases hk : (kv.1 == k) = true
      · simp [alGet, hk]
      · simp only [alMem, Bool.or_eq_true] at h
        have := ih (h.resolve_left hk)
        simpa [alGet, hk] using this
  · rw [if_neg h]
    induction l with
    | nil => simp [alGet]
    | cons kv t ih =>
      have hk : ¬(kv.1 == k) = true := fun hc => h (by simp [alMem, hc])
      have ht : ¬alMem t k = true := fun hc => h (by simp [alMem, hc])
      simpa [alGet, hk] using ih ht

theorem alMem_alSet_of_ne (l : AList) (k k' : String) (v : Val) (hne : k' ≠ k) :
    alMem (alSet l k v) k' = alMem l k' := by
  unfold alSet
  have h2 : (k == k') = false := by simpa using fun hc => hne hc.symm
  by_cases h : alMem l k = true
  · rw [if_pos h]
    clear h
    induction l with
    | nil => simp
    | cons kv t ih =>
      by_cases hk : (kv.1 == k) = true
      · have h1 : kv.1 = k := by simpa using hk
        rw [List.map_cons, if_pos hk]
        simp only [alMem, h2, h1, Bool.false_or]
        exact ih
      · rw [List.map_cons, if_neg hk]
        simp only [alMem]
        rw [ih]
  · rw [if_neg h]
    clear h
    induction l with
    | nil => simp [alMem, h2]
    | cons kv t ih =>
      simp only [List.cons_append, alMem, List.append_eq]
      rw [ih]

/-! ## Jurisdiction lemmas -/

theorem isUk_elim {loc : String} (h : isUk loc = true) :
    toLowerStr loc = "uk" ∨ toLowerStr loc = "united kingdom" := by
  simp only [isUk, Bool.or_eq_true, beq_iff_eq] at h
  exact h

theorem not_isAustralia_of_isUk {loc : String} (h : isUk loc = true) :
    isAustralia loc = false := by
  rcases isUk_elim h with h1 | h1 <;> simp [isAustralia, h1]

/-! ## Derivation-step lemmas -/

theorem detailsWithOriginal_mem_other {details : AList} {p : Rat} {loc : String} {m : AList}
    (h : detailsWithOriginal details p loc = .ok m) (k : String)
    (h1 : k ≠ "exchangeRateGBPOriginal") (h2 : k ≠ "exchangeRateAUSOriginal") :
    alMem m k = alMem details k := by
  unfold detailsWithOriginal at h
  split at h
  · split at h
    · cases h
      exact alMem_alSet_of_ne _ _ _ _ h1
    · cases h
  · split at h
    · split at h
      · cases h
        exact alMem_alSet_of_ne _ _ _ _ h2
      · cases h
    · cases h
      rfl

theorem detailsWithOriginal_not_uk_not_aus {details : AList} {p : Rat} {loc : String}
    (huk : isUk loc = false) (haus : isAustralia loc = false) :
    detailsWithOriginal details p loc = .ok details := by
  unfold detailsWithOriginal
  rw [if_neg (fun hc => by rw [huk] at hc; exact absurd hc.1 (by simp)),
    if_neg (fun hc => by rw [haus] at hc; exact absurd hc.1 (by simp))]

theorem detailsWithOriginal_zero_aus (details : AList) :
    detailsWithOriginal details 0 "aus" = .ok details := by
  unfold detailsWithOriginal
  rw [if_neg (fun hc => by
      have : isUk "aus" = false := by decide
      rw [this] at hc; exact absurd hc.1 (by simp)),
    if_neg (fun hc => lt_irrefl (0 : Rat) hc.2.2)]

/-! ## C1 -/

/-- C1: FALSIFIED (code bug). The claim says every key outside the
exclusion/suppression sets is rendered exactly once. The duplicated trailing
loop (source lines 289-305) emits each leftover key a second time: with the
single mapping key `foo`, the rendered list is `foo, foo`. -/
theorem C1_leftover_keys_emitted_twice :
    renderCalcDetails [("foo", Val.int 1)] 0 "" =
      .ok [("foo", "1"), ("foo", "1")] := rfl

/-! ## C2 -/

/-- C2: FALSIFIED (code bug). The claim says keys of the static exclusion
set are never rendered. The duplicated trailing loop only excludes
`insideLondon`, so an input `totalAmountToCheck` field is rendered there. -/
theorem C2_totalAmountToCheck_emitted :
    renderCalcDetails [("totalAmountToCheck", Val.int 5)] 0 "" =
      .ok [("totalAmountToCheck", "5")] := rfl

/-! ## C3 -/

/-- C3: counterexample. With `exchangeRateGBP` present but unparseable and a
positive buffer, the claim says the derivation is skipped and the
calculation-details render still completes; instead the uncaught conversion
error aborts the whole render. -/
theorem C3_counterexample :
    renderCalcDetails [("exchangeRateGBP", Val.str "abc")] (mkRat 1 20) "uk" =
      .error "ValueError" := rfl

/-- C3 (amended): when the jurisdiction's post-buffer exchange-rate value is
present but not parseable as a number and the buffer is positive, the
`float(...)` call raises and the whole calculation-details render aborts:
the parse failure is fatal, not skipped. -/
theorem C3_amended_parse_failure_fatal (details : AList) (p : Rat) (loc : String) (v : Val) :
    (isUk loc = true → alGet details "exchangeRateGBP" = some v → pyFloatOf v = none →
      0 < p → renderCalcDetails details p loc = .error "ValueError") ∧
    (isAustralia loc = true → alGet details "exchangeRateAUS" = some v → pyFloatOf v = none →
      0 < p → renderCalcDetails details p loc = .error "ValueError") := by
  constructor
  · intro huk hget hfloat hp
    have hmem : alMem details "exchangeRateGBP" = true := alMem_of_alGet hget
    have hd : detailsWithOriginal details p loc = .error "ValueError" := by
      unfold detailsWithOriginal
      rw [if_pos ⟨huk, hmem, hp⟩, hget]
      simp only [Option.getD_some, hfloat]
    unfold renderCalcDetails
    rw [hd]
  · intro haus hget hfloat hp
    have hmem : alMem details "exchangeRateAUS" = true := alMem_of_alGet hget
    have huk : isUk loc = false := by
      by_contra hc
      have : isUk loc = true := by simpa using hc
      rw [not_isAustralia_of_isUk this] at haus
      cases haus
    have hd : detailsWithOriginal details p loc = .error "ValueError" := by
      unfold detailsWithOriginal
      rw [if_neg (fun hc => by rw [huk] at hc; exact absurd hc.1 (by simp)),
        if_pos ⟨haus, hmem, hp⟩, hget]
      simp only [Option.getD_some, hfloat]
    unfold renderCalcDetails
    rw [hd]

/-- Witness for the amended C3 at a concrete input. -/
theorem C3_witness :
    renderCalcDetails [("exchangeRateAUS", Val.str "n/a")] (mkRat 1 20) "Australia" =
      .error "ValueError" :=
  (C3_amended_parse_failure_fatal [("exchangeRateAUS", Val.str "n/a")] (mkRat 1 20)
    "Australia" (Val.str "n/a")).2 (by rfl) (by rfl) (by rfl) (by decide)

/-! ## C4 -/

/-- C4: FALSIFIED (code bug). The claim says a record with a valid date but
an unparseable balance is dropped in full, never misaligned, and cannot
abort the timeline. In the code the date is appended before the balance
parse fails, so the four lists end up misaligned (here two dates against one
balance) and the chart construction raises, killing the whole section. -/
theorem C4_bad_balance_misaligns_timeline :
    timelineLists
        [Val.obj [("transactionDate", Val.str "2024-01-05"),
                  ("totalBalanceInAccount", Val.str "500")],
         Val.obj [("transactionDate", Val.str "2024-03-01"),
                  ("totalBalanceInAccount", Val.str "x")]] =
      .ok ([(2024, 1, 5), (2024, 3, 1)], [(500 : Rat)],
        [Val.str "Unknown"], [Val.str "0"]) ∧
    transactionsItems
        [Val.obj [("transactionDate", Val.str "2024-01-05"),
                  ("totalBalanceInAccount", Val.str "500")],
         Val.obj [("transactionDate", Val.str "2024-03-01"),
                  ("totalBalanceInAccount", Val.str "x")]] [] =
      .error "ValueError" :=
  ⟨rfl, rfl⟩

/-! ## C5 -/

/-- C5: `deriveOriginalRate` is `adjustedRate / (1 + buffer)`, in particular
`105 / 1.05 = 100` (exact in the rational model), and for each jurisdiction
the synthetic original-rate key is inserted into the working mapping iff the
jurisdiction's post-buffer rate key is present and the buffer is strictly
positive (stated for mappings that do not already carry the synthetic key,
and rate values that parse — an unparseable value aborts instead, see C3). -/
theorem C5_derivation :
    deriveOriginalRate 105 (mkRat 1 20) = 100 ∧
    (∀ a b : Rat, deriveOriginalRate a b = a / (1 + b)) ∧
    (∀ details p loc, isUk loc = true → alMem details "exchangeRateGBPOriginal" = false →
      (∀ v, alGet details "exchangeRateGBP" = some v → (pyFloatOf v).isSome = true) →
      ∃ m, detailsWithOriginal details p loc = .ok m ∧
        (alMem m "exchangeRateGBPOriginal" = true ↔
          (alMem details "exchangeRateGBP" = true ∧ 0 < p)) ∧
        (∀ v r, alGet details "exchangeRateGBP" = some v → pyFloatOf v = some r → 0 < p →
          alGet m "exchangeRateGBPOriginal" = some (.num (deriveOriginalRate r p))) ∧
        alMem m "exchangeRateAUSOriginal" = alMem details "exchangeRateAUSOriginal") ∧
    (∀ details p loc, isAustralia loc = true → alMem details "exchangeRateAUSOriginal" = false →
      (∀ v, alGet details "exchangeRateAUS" = some v → (pyFloatOf v).isSome = true) →
      ∃ m, detailsWithOriginal details p loc = .ok m ∧
        (alMem m "exchangeRateAUSOriginal" = true ↔
          (alMem details "exchangeRateAUS" = true ∧ 0 < p)) ∧
        (∀ v r, alGet details "exchangeRateAUS" = some v → pyFloatOf v = some r → 0 < p →
          alGet m "exchangeRateAUSOriginal" = some (.num (deriveOriginalRate r p)))) := by
  refine ⟨?_, fun a b => rfl, ?_, ?_⟩
  · unfold deriveOriginalRate
    rw [Rat.mkRat_eq_div]
    norm_num
  · intro details p loc huk hnot hparse
    by_cases hcond : alMem details "exchangeRateGBP" = true ∧ 0 < p
    · obtain ⟨v, hv⟩ := alGet_of_alMem hcond.1
      obtain ⟨r, hr⟩ := Option.isSome_iff_exists.mp (hparse v hv)
      refine ⟨alSet details "exchangeRateGBPOriginal" (.num (deriveOriginalRate r p)),
        ?_, ?_, ?_, ?_⟩
      · unfold detailsWithOriginal
        rw [if_pos ⟨huk, hcond.1, hcond.2⟩, hv]
        simp only [Option.getD_some, hr]
      · simp [alMem_alSet_self, hcond]
      · intro v' r' hv' hr' _
        rw [hv] at hv'
        injection hv' with h1
        subst h1
        rw [hr] at hr'
        injection hr' with h2
        subst h2
        exact alGet_alSet_self _ _ _
      · exact alMem_alSet_of_ne _ _ _ _ (by decide)
    · refine ⟨details, ?_, ?_, ?_, rfl⟩
      · unfold detailsWithOriginal
        rw [if_neg (fun hc => hcond ⟨hc.2.1, hc.2.2⟩),
          if_neg (fun hc => by
            rw [not_isAustralia_of_isUk huk] at hc
            exact absurd hc.1 (by simp))]
      · constructor
        · intro hm
          rw [hnot] at hm
          cases hm
        · intro hc
          exact absurd hc hcond
      · intro v r hv _ hp
        exact absurd ⟨alMem_of_alGet hv, hp⟩ hcond
  · intro details p loc haus hnot hparse
    have huk : isUk loc = false := by
      by_contra hc
      have h1 : isUk loc = true := by simpa using hc
      rw [not_isAustralia_of_isUk h1] at haus
      cases haus
    by_cases hcond : alMem details "exchangeRateAUS" = true ∧ 0 < p
    · obtain ⟨v, hv⟩ := alGet_of_alMem hcond.1
      obtain ⟨r, hr⟩ := Option.isSome_iff_exists.mp (hparse v hv)
      refine ⟨alSet details "exchangeRateAUSOriginal" (.num (deriveOriginalRate r p)),
        ?_, ?_, ?_⟩
      · unfold detailsWithOriginal
        rw [if_neg (fun hc => by rw [huk] at hc; exact absurd hc.1 (by simp)),
          if_pos ⟨haus, hcond.1, hcond.2⟩, hv]
        simp only [Option.getD_some, hr]
      · simp [alMem_alSet_self, hcond]
      · intro v' r' hv' hr' _
        rw [hv] at hv'
        injection hv' with h1
        subst h1
        rw [hr] at hr'
        injection hr' with h2
        subst h2
        exact alGet_alSet_self _ _ _
    · refine ⟨details, ?_, ?_, ?_⟩
      · unfold detailsWithOriginal
        rw [if_neg (fun hc => by rw [huk] at hc; exact absurd hc.1 (by simp)),
          if_neg (fun hc => hcond ⟨hc.2.1, hc.2.2⟩)]
      · constructor
        · intro hm
          rw [hnot] at hm
          cases hm
        · intro hc
          exact absurd hc hcond
      · intro v r hv _ hp
        exact absurd ⟨alMem_of_alGet hv, hp⟩ hcond

/-- Witness for C5 at the spec's own example: buffer `0.05`, UK, adjusted
rate `105.00`. -/
theorem C5_witness :
    deriveOriginalRate 105 (mkRat 1 20) = 100 ∧
    ∃ m, detailsWithOriginal [("exchangeRateGBP", Val.str "105.00")] (mkRat 1 20) "uk" =
        .ok m ∧ alMem m "exchangeRateGBPOriginal" = true := by
  obtain ⟨h1, _, h3, _⟩ := C5_derivation
  obtain ⟨m, hm, hiff, _, _⟩ := h3 [("exchangeRateGBP", Val.str "105.00")] (mkRat 1 20) "uk"
    (by rfl) (by rfl) (fun v hv => by
      rw [show alGet [("exchangeRateGBP", Val.str "105.00")] "exchangeRateGBP" =
        some (Val.str "105.00") from rfl] at hv
      injection hv with h
      subst h
      rfl)
  exact ⟨h1, m, hm, hiff.mpr ⟨by rfl, by decide⟩⟩

/-! ## C6 -/

/-- C6: for every response object containing an `error` key, the presenter
emits exactly one message (the error string) and renders no other section,
whatever the other top-level keys hold. -/
theorem C6_error_short_circuit (result : AList) (p : Rat) (loc now : String)
    (h : alMem result "error" = true) :
    displayAnalysisResults result p loc now =
      .ok [Item.err ("Error: " ++ pyStr ((alGet result "error").getD .null))] := by
  unfold displayAnalysisResults
  rw [if_pos h]

/-! ## C9 and C10 -/

/-- For every non-UK location, a `boundAmountDependant_PKR` field present in
the mapping is emitted by the leftover loops (the UK-only dependant
suppression never applies): the dependant suppression is UK-specific. -/
theorem bnd_emitted_of_not_uk {loc : String} {details : AList} {p : Rat}
    {out : List (String × String)} (huk : isUk loc = false)
    (hmem : alMem details "boundAmountDependant_PKR" = true)
    (hout : renderCalcDetails details p loc = .ok out) :
    "boundAmountDependant_PKR" ∈ out.map Prod.fst := by
  unfold renderCalcDetails at hout
  cases hdo : detailsWithOriginal details p loc with
  | error e =>
    rw [hdo] at hout
    cases hout
  | ok dwo =>
    rw [hdo] at hout
    injection hout with hout'
    subst hout'
    have hdm : alMem dwo "boundAmountDependant_PKR" = true := by
      rw [detailsWithOriginal_mem_other hdo _ (by decide) (by decide)]
      exact hmem
    obtain ⟨v, hv⟩ := alMem_exists_entry hdm
    refine List.mem_map.mpr
      ⟨("boundAmountDependant_PKR", formatCalcValue "boundAmountDependant_PKR" v), ?_, rfl⟩
    refine List.mem_append.mpr (Or.inl (List.mem_append.mpr (Or.inr ?_)))
    refine List.mem_filterMap.mpr ⟨("boundAmountDependant_PKR", v), hv, ?_⟩
    rw [huk]
    rfl

/-- C9: for the UK jurisdiction, when the dependant field is `false` or
absent, the `boundAmountDependant_PKR` key never appears in the rendered
calculation-details list; and the suppression is applied only for the UK
jurisdiction (for any non-UK location the key, when present, is emitted). -/
theorem C9_dependant_suppression :
    (∀ details p out,
      (alGet details "dependant" = none ∨ alGet details "dependant" = some (.bool false)) →
      renderCalcDetails details p "uk" = .ok out →
      ∀ e ∈ out, e.1 ≠ "boundAmountDependant_PKR") ∧
    (∀ loc details p out, isUk loc = false →
      alMem details "boundAmountDependant_PKR" = true →
      renderCalcDetails details p loc = .ok out →
      "boundAmountDependant_PKR" ∈ out.map Prod.fst) := by
  constructor
  · intro details p out hdep hout e he
    have hdepv : (alGet details "dependant").getD (.bool false) = .bool false := by
      rcases hdep with h | h <;> rw [h] <;> rfl
    unfold renderCalcDetails at hout
    cases hdo : detailsWithOriginal details p "uk" with
    | error e' =>
      rw [hdo] at hout
      cases hout
    | ok dwo =>
      rw [hdo] at hout
      injection hout with hout'
      subst hout'
      rw [hdepv] at he
      rcases List.mem_append.mp he with h12 | h3
      · rcases List.mem_append.mp h12 with h1 | h2
        · obtain ⟨key, hkey, hf⟩ := List.mem_filterMap.mp h1
          intro hbad
          by_cases hc1 : (alMem dwo key && !excludedFields.contains key) = true
          · rw [if_pos hc1] at hf
            by_cases hc2 : (isUk "uk" && !truthy (Val.bool false) &&
                key == "boundAmountDependant_PKR") = true
            · rw [if_pos hc2] at hf
              cases hf
            · rw [if_neg hc2] at hf
              injection hf with hf'
              apply hc2
              rw [← hf'] at hbad
              have hb2 : key = "boundAmountDependant_PKR" := hbad
              rw [hb2]
              decide
          · rw [if_neg hc1] at hf
            cases hf
        · obtain ⟨kv, hkv, hf⟩ := List.mem_filterMap.mp h2
          intro hbad
          by_cases hc1 : (!(if isUk "uk" = true then ukFieldOrder else ausFieldOrder).contains kv.1 &&
              !excludedFields.contains kv.1) = true
          · rw [if_pos hc1] at hf
            by_cases hc2 : (isUk "uk" && !truthy (Val.bool false) &&
                kv.1 == "boundAmountDependant_PKR") = true
            · rw [if_pos hc2] at hf
              cases hf
            · rw [if_neg hc2] at hf
              injection hf with hf'
              rw [← hf'] at hbad
              have hb2 : kv.1 = "boundAmountDependant_PKR" := hbad
              rw [hb2] at hc1
              exact absurd hc1 (by decide)
          · rw [if_neg hc1] at hf
            cases hf
      · obtain ⟨kv, hkv, hf⟩ := List.mem_filterMap.mp h3
        intro hbad
        by_cases hc1 : (!(if isUk "uk" = true then ukFieldOrder else ausFieldOrder).contains kv.1 &&
            kv.1 != "insideLondon") = true
        · rw [if_pos hc1] at hf
          by_cases hc2 : (isUk "uk" && !truthy (Val.bool false) &&
              kv.1 == "boundAmountDependant_PKR") = true
          · rw [if_pos hc2] at hf
            cases hf
          · rw [if_neg hc2] at hf
            injection hf with hf'
            rw [← hf'] at hbad
            have hb2 : kv.1 = "boundAmountDependant_PKR" := hbad
            rw [hb2] at hc1
            exact absurd hc1 (by decide)
        · rw [if_neg hc1] at hf
          cases hf
  · intro loc details p out huk hmem hout
    exact bnd_emitted_of_not_uk huk hmem hout

/-- Witness for C9: concrete UK render with `dependant = false` omits the
dependant bound amount, the same mapping under `australia` emits it. -/
theorem C9_witness :
    (∀ e ∈ [(("dependant" : String), ("No" : String))], e.1 ≠ "boundAmountDependant_PKR") ∧
    "boundAmountDependant_PKR" ∈
      [("dependant", "No"), ("boundAmountDependant_PKR", "500"),
       ("dependant", "No"), ("boundAmountDependant_PKR", "500")].map
        (Prod.fst (α := String) (β := String)) := by
  constructor
  · exact C9_dependant_suppression.1
      [("dependant", Val.bool false), ("boundAmountDependant_PKR", Val.int 500)] 0
      [("dependant", "No")] (Or.inr (by rfl)) (by rfl)
  · exact C9_dependant_suppression.2 "australia"
      [("dependant", Val.bool false), ("boundAmountDependant_PKR", Val.int 500)] 0
      [("dependant", "No"), ("boundAmountDependant_PKR", "500"),
       ("dependant", "No"), ("boundAmountDependant_PKR", "500")]
      (by rfl) (by rfl) (by rfl)

/-- C10: any location that is not a case-insensitive match of the UK names
falls through to the Australia field ordering with no UK dependant
suppression; if it does not match the Australia names either, no original
rate is derived (the render equals the zero-buffer Australia render), and
the render always succeeds — unknown jurisdictions are never rejected. -/
theorem C10_unknown_jurisdiction :
    (∀ loc details p, isUk loc = false → isAustralia loc = false →
      renderCalcDetails details p loc = renderCalcDetails details 0 "aus") ∧
    (∀ loc details p, isUk loc = false → isAustralia loc = false →
      ∃ out, renderCalcDetails details p loc = .ok out) ∧
    (∀ loc details p out, isUk loc = false →
      alMem details "boundAmountDependant_PKR" = true →
      renderCalcDetails details p loc = .ok out →
      "boundAmountDependant_PKR" ∈ out.map Prod.fst) := by
  have key : ∀ loc details p, isUk loc = false → isAustralia loc = false →
      renderCalcDetails details p loc = renderCalcDetails details 0 "aus" := by
    intro loc details p huk haus
    unfold renderCalcDetails
    rw [detailsWithOriginal_not_uk_not_aus huk haus, detailsWithOriginal_zero_aus]
    simp only [huk, show isUk "aus" = false from rfl]
  refine ⟨key, ?_, ?_⟩
  · intro loc details p huk haus
    rw [key loc details p huk haus]
    unfold renderCalcDetails
    rw [detailsWithOriginal_zero_aus]
    exact ⟨_, rfl⟩
  · intro loc details p out huk hmem hout
    exact bnd_emitted_of_not_uk huk hmem hout

/-- Witness for C10: the misspelled location `Austrlia` renders like
zero-buffer Australia and succeeds. -/
theorem C10_witness :
    renderCalcDetails [("foo", Val.int 1)] (mkRat 1 20) "Austrlia" =
      renderCalcDetails [("foo", Val.int 1)] 0 "aus" ∧
    (∃ out, renderCalcDetails [("foo", Val.int 1)] (mkRat 1 20) "Austrlia" = .ok out) := by
  constructor
  · exact C10_unknown_jurisdiction.1 "Austrlia" [("foo", Val.int 1)] (mkRat 1 20)
      (by rfl) (by rfl)
  · exact C10_unknown_jurisdiction.2.1 "Austrlia" [("foo", Val.int 1)] (mkRat 1 20)
      (by rfl) (by rfl)

/-- Witness for C6: a response with an error key and every other section
present renders as the single error message. -/
theorem C6_witness :
    displayAnalysisResults
        [("error", Val.str "timeout"),
         ("Information", Val.obj [("verdict", Val.str "Original")]),
         ("Issues", Val.list [Val.int 1]),
         ("calculationDetails", Val.obj [("x", Val.int 1)]),
         ("allTransactions", Val.list [Val.int 2])] 0 "uk" "2026-10-12 00:00:00" =
      .ok [Item.err "Error: timeout"] :=
  C6_error_short_circuit _ 0 "uk" "2026-10-12 00:00:00" (by rfl)

/-! ## Digit and rendering lemmas (infrastructure for C7 and C8) -/

theorem digitChar_toNat {n : Nat} (h : n < 10) : (digitChar n).toNat = 48 + n := by
  interval_cases n <;> decide

theorem isDigitC_digitChar {n : Nat} (h : n < 10) : isDigitC (digitChar n) = true := by
  interval_cases n <;> decide

theorem isDigitC_ne {c : Char} (h : isDigitC c = true) :
    c ≠ ',' ∧ c ≠ '.' ∧ c ≠ '-' ∧ c ≠ '+' ∧ c ≠ 'e' ∧ c ≠ 'E' := by
  refine ⟨?_, ?_, ?_, ?_, ?_, ?_⟩ <;>
    (intro he; subst he; exact absurd h (by decide))

theorem digitsVal_append_singleton (l : List Char) (c : Char) :
    digitsVal (l ++ [c]) = 10 * digitsVal l + (c.toNat - 48) := by
  unfold digitsVal
  rw [List.foldl_append]
  rfl

theorem digitsVal_pair (a b : Char) :
    digitsVal [a, b] = 10 * (a.toNat - 48) + (b.toNat - 48) := by
  simp [digitsVal, List.foldl]

theorem natRenderF_spec : ∀ f n, n ≤ f →
    digitsVal (natRenderF f n) = n ∧ natRenderF f n ≠ [] ∧
      ∀ c ∈ natRenderF f n, isDigitC c = true := by
  intro f
  induction f with
  | zero =>
    intro n hn
    have h0 : n = 0 := Nat.le_zero.mp hn
    subst h0
    exact ⟨by decide, by decide, by decide⟩
  | succ f ih =>
    intro n hn
    by_cases h10 : n < 10
    · simp only [natRenderF, if_pos h10]
      refine ⟨?_, by simp, ?_⟩
      · have := digitChar_toNat h10
        simp [digitsVal, List.foldl, this]
      · intro c hc
        simp only [List.mem_singleton] at hc
        subst hc
        exact isDigitC_digitChar h10
    · simp only [natRenderF, if_neg h10]
      have hdiv : n / 10 ≤ f := by omega
      obtain ⟨ih1, ih2, ih3⟩ := ih (n / 10) hdiv
      have hmod : n % 10 < 10 := Nat.mod_lt _ (by omega)
      refine ⟨?_, by simp, ?_⟩
      · rw [digitsVal_append_singleton, ih1, digitChar_toNat hmod]
        omega
      · intro c hc
        rcases List.mem_append.mp hc with h | h
        · exact ih3 c h
        · simp only [List.mem_singleton] at h
          subst h
          exact isDigitC_digitChar hmod

theorem digitsVal_natRender (n : Nat) : digitsVal (natRender n) = n :=
  (natRenderF_spec n n (le_refl n)).1

theorem natRender_ne_nil (n : Nat) : natRender n ≠ [] :=
  (natRenderF_spec n n (le_refl n)).2.1

theorem natRender_digits (n : Nat) : ∀ c ∈ natRender n, isDigitC c = true :=
  (natRenderF_spec n n (le_refl n)).2.2

theorem pad2_digits {b : Nat} (h : b < 100) : ∀ c ∈ pad2 b, isDigitC c = true := by
  intro c hc
  unfold pad2 at hc
  rcases List.mem_pair.mp hc with rfl | rfl
  · exact isDigitC_digitChar (by omega)
  · exact isDigitC_digitChar (Nat.mod_lt _ (by omega))

theorem digitsVal_pad2 {b : Nat} (h : b < 100) : digitsVal (pad2 b) = b := by
  unfold pad2
  rw [digitsVal_pair, digitChar_toNat (by omega : b / 10 < 10),
    digitChar_toNat (Nat.mod_lt _ (by omega) : b % 10 < 10)]
  omega

/-! ## Digit-span lemmas -/

theorem digitSpan_stop : ∀ (l r : List Char), (∀ c ∈ l, isDigitC c = true) →
    headNotDigit r = true → digitSpan (l ++ r) = (l, r) := by
  intro l
  induction l with
  | nil =>
    intro r _ hr
    cases r with
    | nil => rfl
    | cons c t =>
      have hc : isDigitC c = false := by simpa [headNotDigit] using hr
      simp [digitSpan, hc]
  | cons c t ih =>
    intro r hl hr
    have hc : isDigitC c = true := hl c (List.mem_cons_self c t)
    have ht := ih r (fun x hx => hl x (List.mem_cons_of_mem c hx)) hr
    simp [digitSpan, hc, ht]

theorem digitSpan_all (l : List Char) (h : ∀ c ∈ l, isDigitC c = true) :
    digitSpan l = (l, []) := by
  have := digitSpan_stop l [] h (by rfl)
  simpa using this

/-! ## Parse/format round trip -/

theorem round2_def (q : Rat) : round2 q =
    (if 2 * Int.emod (q.num * 100) (q.den : Int) < (q.den : Int) then
      Int.ediv (q.num * 100) (q.den : Int)
    else if (q.den : Int) < 2 * Int.emod (q.num * 100) (q.den : Int) then
      Int.ediv (q.num * 100) (q.den : Int) + 1
    else if Int.ediv (q.num * 100) (q.den : Int) % 2 = 0 then
      Int.ediv (q.num * 100) (q.den : Int)
    else Int.ediv (q.num * 100) (q.den : Int) + 1) := rfl

theorem format2Chars_def (q : Rat) : format2Chars q =
    (if round2 q < 0 then ['-'] else []) ++ natRender ((round2 q).natAbs / 100) ++
      '.' :: pad2 ((round2 q).natAbs % 100) := rfl

theorem parseUnsigned_render (A B : Nat) (hB : B < 100) :
    parseUnsigned (natRender A ++ '.' :: pad2 B) =
      some (mkRat ((A * 100 + B : Nat) : Int) 100) := by
  have hspan : digitSpan (natRender A ++ '.' :: pad2 B) = (natRender A, '.' :: pad2 B) :=
    digitSpan_stop _ _ (natRender_digits A) (by rfl)
  have hspan2 : digitSpan (pad2 B) = (pad2 B, []) := digitSpan_all _ (pad2_digits hB)
  unfold parseUnsigned
  rw [hspan]
  have h1 : parseTail (natRender A) ('.' :: pad2 B) =
      parseFrac (natRender A) (digitSpan (pad2 B)).1 (digitSpan (pad2 B)).2 := rfl
  rw [h1, hspan2]
  have h2 : parseFrac (natRender A) (pad2 B) [] =
      if (natRender A).isEmpty && (pad2 B).isEmpty then none
      else some (mantissa (natRender A) (pad2 B)) := rfl
  rw [h2]
  have hne : (natRender A).isEmpty = false := by
    simpa [List.isEmpty_iff] using natRender_ne_nil A
  rw [hne]
  simp only [Bool.false_and, Bool.false_eq_true, if_false]
  unfold mantissa
  rw [digitsVal_natRender, digitsVal_pad2 hB,
    show (pad2 B).length = 2 from rfl]
  norm_num

theorem round2_intCast_div (m : Int) : round2 (mkRat m 100) = m := by
  have hq : mkRat m 100 = (m : Rat) / 100 := by
    rw [Rat.mkRat_eq_div]
    norm_num
  have hdenQ : (((mkRat m 100).den : Rat)) ≠ 0 := by
    exact_mod_cast (mkRat m 100).den_pos.ne'
  have hnum : ((mkRat m 100).num : Rat) * 100 = (m : Rat) * ((mkRat m 100).den : Rat) := by
    have h1 : ((mkRat m 100).num : Rat) / ((mkRat m 100).den : Rat) = mkRat m 100 :=
      Rat.num_div_den _
    rw [div_eq_iff hdenQ] at h1
    rw [h1, hq]
    field_simp
  have hint : (mkRat m 100).num * 100 = m * ((mkRat m 100).den : Int) := by
    exact_mod_cast hnum
  have hd0 : (((mkRat m 100).den : Nat) : Int) ≠ 0 := by
    exact_mod_cast (mkRat m 100).den_pos.ne'
  have hdpos : (0 : Int) < ((mkRat m 100).den : Int) := by
    exact_mod_cast (mkRat m 100).den_pos
  have he : Int.ediv (m * ((mkRat m 100).den : Int)) ((mkRat m 100).den : Int) = m :=
    Int.mul_ediv_cancel m hd0
  have hm : Int.emod (m * ((mkRat m 100).den : Int)) ((mkRat m 100).den : Int) = 0 :=
    Int.mul_emod_left m _
  rw [round2_def, hint, he, hm]
  rw [if_pos (by omega : 2 * (0 : Int) < ((mkRat m 100).den : Int))]

theorem format2_eq_of_round2_eq {q q' : Rat} (h : round2 q = round2 q') :
    format2 q = format2 q' := by
  unfold format2
  rw [format2Chars_def, format2Chars_def, h]

theorem parseFloat_format2 (q : Rat) :
    parseFloat (format2 q) = some (mkRat (round2 q) 100) := by
  have hdata : (format2 q).data = format2Chars q := rfl
  unfold parseFloat
  rw [hdata, format2Chars_def]
  by_cases hneg : round2 q < 0
  · rw [if_pos hneg]
    have hc : parseFloatChars ('-' :: (natRender ((round2 q).natAbs / 100) ++
        '.' :: pad2 ((round2 q).natAbs % 100))) =
        (parseUnsigned (natRender ((round2 q).natAbs / 100) ++
          '.' :: pad2 ((round2 q).natAbs % 100))).map (fun x => -x) := rfl
    rw [show (['-'] ++ natRender ((round2 q).natAbs / 100) ++
        '.' :: pad2 ((round2 q).natAbs % 100)) =
        '-' :: (natRender ((round2 q).natAbs / 100) ++
          '.' :: pad2 ((round2 q).natAbs % 100)) from rfl]
    rw [hc, parseUnsigned_render _ _ (Nat.mod_lt _ (by omega))]
    have hval : ((round2 q).natAbs / 100 * 100 + (round2 q).natAbs % 100 : Nat) =
        (round2 q).natAbs := by omega
    rw [hval]
    rw [Option.map_some']
    congr 1
    rw [Rat.mkRat_eq_div, Rat.mkRat_eq_div]
    have habs : ((round2 q).natAbs : Int) = -(round2 q) :=
      Int.ofNat_natAbs_of_nonpos (by omega)
    rw [habs]
    push_cast
    ring
  · rw [if_neg hneg]
    have hA := natRender_ne_nil ((round2 q).natAbs / 100)
    obtain ⟨c, cs, hX⟩ := List.exists_cons_of_ne_nil hA
    have hc : isDigitC c = true :=
      natRender_digits _ c (by rw [hX]; exact List.mem_cons_self _ _)
    obtain ⟨-, -, hm, hp, -, -⟩ := isDigitC_ne hc
    rw [show ([] ++ natRender ((round2 q).natAbs / 100) ++
        '.' :: pad2 ((round2 q).natAbs % 100)) =
        natRender ((round2 q).natAbs / 100) ++
          '.' :: pad2 ((round2 q).natAbs % 100) from by simp]
    rw [hX, List.cons_append]
    have hstep : parseFloatChars (c :: (cs ++ '.' :: pad2 ((round2 q).natAbs % 100))) =
        if c = '+' then parseUnsigned (cs ++ '.' :: pad2 ((round2 q).natAbs % 100))
        else if c = '-' then (parseUnsigned (cs ++ '.' :: pad2 ((round2 q).natAbs % 100))).map
          (fun x => -x)
        else parseUnsigned (c :: (cs ++ '.' :: pad2 ((round2 q).natAbs % 100))) := rfl
    rw [hstep, if_neg hp, if_neg hm, ← List.cons_append, ← hX,
      parseUnsigned_render _ _ (Nat.mod_lt _ (by omega))]
    have hval : ((round2 q).natAbs / 100 * 100 + (round2 q).natAbs % 100 : Nat) =
        (round2 q).natAbs := by omega
    rw [hval]
    congr 2
    exact Int.natAbs_of_nonneg (by omega)

theorem format2Chars_classes (q : Rat) :
    ∀ c ∈ format2Chars q, isDigitC c = true ∨ c = '.' ∨ c = '-' := by
  intro c hc
  rw [format2Chars_def] at hc
  rcases List.mem_append.mp hc with h | h
  · rcases List.mem_append.mp h with h1 | h1
    · by_cases hneg : round2 q < 0
      · rw [if_pos hneg] at h1
        simp only [List.mem_singleton] at h1
        exact Or.inr (Or.inr h1)
      · rw [if_neg hneg] at h1
        cases h1
    · exact Or.inl (natRender_digits _ c h1)
  · rcases List.mem_cons.mp h with h1 | h1
    · exact Or.inr (Or.inl h1)
    · exact Or.inl (pad2_digits (Nat.mod_lt _ (by omega)) c h1)

theorem stripCommas_format2 (q : Rat) : stripCommas (format2 q) = format2 q := by
  unfold stripCommas format2
  congr 1
  apply List.filter_eq_self.mpr
  intro c hc
  have hcls := format2Chars_classes q c (by simpa using hc)
  simp only [decide_eq_true_eq]
  rcases hcls with h | h | h
  · exact (isDigitC_ne h).1
  · subst h; decide
  · subst h; decide

/-! ## C8 -/

theorem formatCurrency_format2_fixed (q : Rat) :
    formatCurrency (.str (format2 q)) = .str (format2 q) := by
  have h1 : formatCurrency (.str (format2 q)) =
      match parseFloat (stripCommas (format2 q)) with
      | some r => .str (format2 r)
      | none => .str (format2 q) := rfl
  rw [h1, stripCommas_format2, parseFloat_format2]
  simp only []
  congr 1
  exact format2_eq_of_round2_eq (round2_intCast_div (round2 q))

/-- C8: `format_currency` is idempotent on numeric-like inputs — numbers,
and strings that parse as a number after comma-stripping — and returns
unparseable strings unchanged (and, being a total function, never fails). -/
theorem C8_idempotent :
    (∀ q : Rat, formatCurrency (formatCurrency (.num q)) = formatCurrency (.num q)) ∧
    (∀ n : Int, formatCurrency (formatCurrency (.int n)) = formatCurrency (.int n)) ∧
    (∀ s q, parseFloat (stripCommas s) = some q →
      formatCurrency (formatCurrency (.str s)) = formatCurrency (.str s)) ∧
    (∀ s, parseFloat (stripCommas s) = none → formatCurrency (.str s) = .str s) := by
  refine ⟨?_, ?_, ?_, ?_⟩
  · intro q
    show formatCurrency (.str (format2 q)) = .str (format2 q)
    exact formatCurrency_format2_fixed q
  · intro n
    show formatCurrency (.str (format2 (n : Rat))) = .str (format2 (n : Rat))
    exact formatCurrency_format2_fixed _
  · intro s q h
    have h1 : formatCurrency (.str s) =
        match parseFloat (stripCommas s) with
        | some r => .str (format2 r)
        | none => .str s := rfl
    rw [h1, h]
    exact formatCurrency_format2_fixed q
  · intro s h
    have h1 : formatCurrency (.str s) =
        match parseFloat (stripCommas s) with
        | some r => .str (format2 r)
        | none => .str s := rfl
    rw [h1, h]

/-! ## Scanner lemmas (C7) -/

theorem digitSpan_decomp : ∀ l : List Char, l = (digitSpan l).1 ++ (digitSpan l).2 := by
  intro l
  induction l with
  | nil => rfl
  | cons c t ih =>
    by_cases hc : isDigitC c = true
    · simp only [digitSpan, hc, if_true]
      exact congrArg (c :: ·) ih
    · have hc' : isDigitC c = false := by simpa using hc
      simp [digitSpan, hc']

theorem digitSpan_fst_digits : ∀ l : List Char, ∀ c ∈ (digitSpan l).1, isDigitC c = true := by
  intro l
  induction l with
  | nil => intro c hc; cases hc
  | cons x t ih =>
    intro c hc
    by_cases hx : isDigitC x = true
    · simp only [digitSpan, hx, if_true] at hc
      rcases List.mem_cons.mp hc with rfl | h
      · exact hx
      · exact ih c h
    · have hx' : isDigitC x = false := by simpa using hx
      simp [digitSpan, hx'] at hc

theorem digitSpan_cons_digit {c : Char} {l : List Char} (hc : isDigitC c = true) :
    digitSpan (c :: l) = (c :: (digitSpan l).1, (digitSpan l).2) := by
  simp [digitSpan, hc]

theorem digitSpan_cons_nondigit {c : Char} {l : List Char} (hc : isDigitC c = false) :
    digitSpan (c :: l) = ([], c :: l) := by
  simp [digitSpan, hc]

theorem digitSpan_append_of_ne_nil :
    ∀ (l r : List Char), (digitSpan l).2 ≠ [] →
      digitSpan (l ++ r) = ((digitSpan l).1, (digitSpan l).2 ++ r) := by
  intro l
  induction l with
  | nil => intro r h; exact absurd rfl h
  | cons c t ih =>
    intro r h
    by_cases hc : isDigitC c = true
    · have h' : (digitSpan t).2 ≠ [] := by
        rw [digitSpan_cons_digit hc] at h
        exact h
      rw [List.cons_append, digitSpan_cons_digit hc, digitSpan_cons_digit hc, ih r h']
    · have hc' : isDigitC c = false := by simpa using hc
      rw [digitSpan_cons_nondigit hc'] at h ⊢
      rw [List.cons_append, digitSpan_cons_nondigit hc']

/-! Case analysis of `scanStep`. -/

theorem scanStep_nondigit {c : Char} {rest : List Char} (hc : isDigitC c = false) :
    scanStep c rest = none := by
  simp [scanStep, hc]

theorem scanStep_span_nil {c : Char} {rest ds : List Char} (hc : isDigitC c = true)
    (hsp : digitSpan (c :: rest) = (ds, [])) : scanStep c rest = none := by
  unfold scanStep
  rw [if_pos hc, hsp]

theorem scanStep_nodot {c d : Char} {rest ds r2 : List Char} (hc : isDigitC c = true)
    (hsp : digitSpan (c :: rest) = (ds, d :: r2)) (hd : d ≠ '.') :
    scanStep c rest = none := by
  unfold scanStep
  rw [if_pos hc, hsp]
  show (if d = '.' then _ else none) = none
  rw [if_neg hd]

theorem scanStep_short {c : Char} {rest ds r2 fs r3 : List Char} (hc : isDigitC c = true)
    (hsp : digitSpan (c :: rest) = (ds, '.' :: r2)) (hsp2 : digitSpan r2 = (fs, r3))
    (hlen : fs.length < 3) : scanStep c rest = none := by
  unfold scanStep
  rw [if_pos hc, hsp]
  show (if ('.' : Char) = '.' then _ else none) = none
  rw [if_pos rfl, hsp2]
  show (if 3 ≤ fs.length then _ else none) = none
  rw [if_neg (by omega)]

theorem scanStep_match {c : Char} {rest ds r2 fs r3 : List Char} (hc : isDigitC c = true)
    (hsp : digitSpan (c :: rest) = (ds, '.' :: r2)) (hsp2 : digitSpan r2 = (fs, r3))
    (hlen : 3 ≤ fs.length) :
    scanStep c rest = some (format2Chars (mantissa ds fs), r3) := by
  unfold scanStep
  rw [if_pos hc, hsp]
  show (if ('.' : Char) = '.' then _ else none) = _
  rw [if_pos rfl, hsp2]
  show (if 3 ≤ fs.length then _ else none) = _
  rw [if_pos hlen]

theorem scanStep_some_inv {c : Char} {rest rep r3 : List Char}
    (h : scanStep c rest = some (rep, r3)) :
    isDigitC c = true ∧ ∃ ds r2 fs, digitSpan (c :: rest) = (ds, '.' :: r2) ∧
      digitSpan r2 = (fs, r3) ∧ 3 ≤ fs.length ∧ rep = format2Chars (mantissa ds fs) := by
  by_cases hc : isDigitC c = true
  · refine ⟨hc, ?_⟩
    obtain ⟨ds, rest1, hsp⟩ : ∃ ds rest1, digitSpan (c :: rest) = (ds, rest1) := ⟨_, _, rfl⟩
    cases rest1 with
    | nil => rw [scanStep_span_nil hc hsp] at h; cases h
    | cons d r2 =>
      by_cases hd : d = '.'
      · subst hd
        obtain ⟨fs, r3', hsp2⟩ : ∃ fs r3', digitSpan r2 = (fs, r3') := ⟨_, _, rfl⟩
        by_cases hlen : 3 ≤ fs.length
        · rw [scanStep_match hc hsp hsp2 hlen] at h
          injection h with h'
          injection h' with h1 h2
          subst h2
          exact ⟨ds, r2, fs, hsp, hsp2, hlen, h1.symm⟩
        · rw [scanStep_short hc hsp hsp2 (by omega)] at h
          cases h
      · rw [scanStep_nodot hc hsp hd] at h
        cases h
  · rw [scanStep_nondigit (by simpa using hc)] at h
    cases h

theorem scanStep_some_length {c : Char} {rest rep r3 : List Char}
    (h : scanStep c rest = some (rep, r3)) : r3.length + 3 ≤ rest.length := by
  obtain ⟨hc, ds, r2, fs, hsp, hsp2, hlen, -⟩ := scanStep_some_inv h
  have h1 : c :: rest = ds ++ '.' :: r2 := by
    have := digitSpan_decomp (c :: rest)
    rw [hsp] at this
    exact this
  have h2 : r2 = fs ++ r3 := by
    have := digitSpan_decomp r2
    rw [hsp2] at this
    exact this
  have hc1 := congrArg List.length h1
  have hc2 := congrArg List.length h2
  simp only [List.length_append, List.length_cons] at hc1 hc2
  omega

/-! Scanner unfolding lemmas. -/

theorem ftwcScanF_nil : ∀ f, ftwcScanF f [] = [] := by
  intro f
  cases f <;> rfl

theorem ftwcScanF_cons (f : Nat) (c : Char) (rest : List Char) :
    ftwcScanF (f + 1) (c :: rest) =
      match scanStep c rest with
      | some (rep, r3) => rep ++ ftwcScanF f r3
      | none => c :: ftwcScanF f rest := rfl

theorem ftwcScanF_fuel_eq : ∀ f g l, l.length ≤ f → l.length ≤ g →
    ftwcScanF f l = ftwcScanF g l := by
  intro f
  induction f with
  | zero =>
    intro g l hf _
    have h0 : l = [] := List.eq_nil_of_length_eq_zero (Nat.le_zero.mp hf)
    subst h0
    rw [ftwcScanF_nil, ftwcScanF_nil]
  | succ f ih =>
    intro g l hf hg
    cases l with
    | nil => rw [ftwcScanF_nil, ftwcScanF_nil]
    | cons c rest =>
      cases g with
      | zero => simp at hg
      | succ g' =>
        rw [ftwcScanF_cons, ftwcScanF_cons]
        have hf' : rest.length ≤ f := by
          simpa [List.length_cons] using hf
        have hg' : rest.length ≤ g' := by
          simpa [List.length_cons] using hg
        cases hstep : scanStep c rest with
        | none =>
          show c :: ftwcScanF f rest = c :: ftwcScanF g' rest
          rw [ih g' rest hf' hg']
        | some pr =>
          rcases pr with ⟨rep, r3⟩
          have hlen := scanStep_some_length hstep
          show rep ++ ftwcScanF f r3 = rep ++ ftwcScanF g' r3
          rw [ih g' r3 (by omega) (by omega)]

theorem ftwcScan_cons_none (c : Char) (rest : List Char) (h : scanStep c rest = none) :
    ftwcScan (c :: rest) = c :: ftwcScan rest := by
  unfold ftwcScan
  show ftwcScanF (rest.length + 1) (c :: rest) = _
  rw [ftwcScanF_cons, h]

theorem ftwcScan_cons_some (c : Char) (rest : List Char) {rep r3 : List Char}
    (h : scanStep c rest = some (rep, r3)) :
    ftwcScan (c :: rest) = rep ++ ftwcScan r3 := by
  unfold ftwcScan
  show ftwcScanF (rest.length + 1) (c :: rest) = _
  rw [ftwcScanF_cons, h]
  show rep ++ ftwcScanF rest.length r3 = rep ++ ftwcScanF r3.length r3
  have hlen := scanStep_some_length h
  rw [ftwcScanF_fuel_eq rest.length r3.length r3 (by omega) (le_refl _)]

theorem ftwcScan_nil : ftwcScan [] = [] := rfl

theorem ftwcScan_no_digits : ∀ l : List Char, (∀ c ∈ l, isDigitC c = false) →
    ftwcScan l = l := by
  intro l
  induction l with
  | nil => intro _; rfl
  | cons c rest ih =>
    intro h
    rw [ftwcScan_cons_none c rest (scanStep_nondigit (h c (List.mem_cons_self c rest)))]
    rw [ih (fun x hx => h x (List.mem_cons_of_mem c hx))]

theorem ftwcScan_all_digits : ∀ l : List Char, (∀ c ∈ l, isDigitC c = true) →
    ftwcScan l = l := by
  intro l
  induction l with
  | nil => intro _; rfl
  | cons c rest ih =>
    intro h
    have hc : isDigitC c = true := h c (List.mem_cons_self c rest)
    have hsp : digitSpan (c :: rest) = (c :: rest, []) := digitSpan_all _ h
    rw [ftwcScan_cons_none c rest (scanStep_span_nil hc hsp)]
    rw [ih (fun x hx => h x (List.mem_cons_of_mem c hx))]

theorem ftwcScan_short_decimal : ∀ ds fs : List Char, ds ≠ [] →
    (∀ c ∈ ds, isDigitC c = true) → fs ≠ [] → (∀ c ∈ fs, isDigitC c = true) →
    fs.length ≤ 2 → ftwcScan (ds ++ '.' :: fs) = ds ++ '.' :: fs := by
  intro ds
  induction ds with
  | nil => intro fs h; exact absurd rfl h
  | cons c dt ih =>
    intro fs _ hds hfsne hfs hlen
    have hc : isDigitC c = true := hds c (List.mem_cons_self c dt)
    have hsp : digitSpan (c :: (dt ++ '.' :: fs)) = (c :: dt, '.' :: fs) :=
      digitSpan_stop (c :: dt) ('.' :: fs) hds (by rfl)
    have hsp2 : digitSpan fs = (fs, []) := digitSpan_all _ hfs
    have hstep := scanStep_short hc hsp hsp2 (by omega)
    show ftwcScan (c :: (dt ++ '.' :: fs)) = c :: (dt ++ '.' :: fs)
    rw [ftwcScan_cons_none c (dt ++ '.' :: fs) hstep]
    cases dt with
    | nil =>
      rw [show ([] : List Char) ++ '.' :: fs = '.' :: fs from rfl,
        ftwcScan_cons_none '.' fs (scanStep_nondigit (by decide)),
        ftwcScan_all_digits fs hfs]
    | cons d dt' =>
      rw [ih fs (by simp) (fun x hx => hds x (List.mem_cons_of_mem c hx)) hfsne hfs hlen]

theorem ftwcScan_long_decimal : ∀ ds fs : List Char, ds ≠ [] →
    (∀ c ∈ ds, isDigitC c = true) → (∀ c ∈ fs, isDigitC c = true) → 3 ≤ fs.length →
    ftwcScan (ds ++ '.' :: fs) = format2Chars (mantissa ds fs) := by
  intro ds fs hne hds hfs hlen
  obtain ⟨c, dt, rfl⟩ := List.exists_cons_of_ne_nil hne
  have hc : isDigitC c = true := hds c (List.mem_cons_self c dt)
  have hsp : digitSpan (c :: (dt ++ '.' :: fs)) = (c :: dt, '.' :: fs) :=
    digitSpan_stop (c :: dt) ('.' :: fs) hds (by rfl)
  have hsp2 : digitSpan fs = (fs, []) := digitSpan_all _ hfs
  have hstep := scanStep_match hc hsp hsp2 hlen
  show ftwcScan (c :: (dt ++ '.' :: fs)) = _
  rw [ftwcScan_cons_some c (dt ++ '.' :: fs) hstep, ftwcScan_nil, List.append_nil]

theorem ftwcScan_split : ∀ (n : Nat) (a : List Char) (c : Char) (b : List Char),
    a.length ≤ n → isDigitC c = false → c ≠ '.' →
    ftwcScan (a ++ c :: b) = ftwcScan (a ++ [c]) ++ ftwcScan b := by
  intro n
  induction n using Nat.strong_induction_on with
  | _ n ih =>
    intro a c b hlen hc hdot
    cases a with
    | nil =>
      show ftwcScan (c :: b) = ftwcScan [c] ++ ftwcScan b
      rw [ftwcScan_cons_none c b (scanStep_nondigit hc),
        ftwcScan_cons_none c [] (scanStep_nondigit hc), ftwcScan_nil]
      rfl
    | cons x t =>
      have hlent : t.length ≤ n - 1 := by
        simp only [List.length_cons] at hlen
        omega
      have hn1 : 1 ≤ n := by
        simp only [List.length_cons] at hlen
        omega
      have hihT : scanStep x (t ++ c :: b) = none → scanStep x (t ++ [c]) = none →
          ftwcScan ((x :: t) ++ c :: b) = ftwcScan ((x :: t) ++ [c]) ++ ftwcScan b := by
        -- common fall-through step: both scans keep `x` and recurse on `t`
        intro hstepl hstepr
        show ftwcScan (x :: (t ++ c :: b)) = ftwcScan (x :: (t ++ [c])) ++ ftwcScan b
        rw [ftwcScan_cons_none x (t ++ c :: b) hstepl,
          ftwcScan_cons_none x (t ++ [c]) hstepr,
          ih (n - 1) (by omega) t c b hlent hc hdot]
        rfl
      by_cases hx : isDigitC x = true
      · obtain ⟨ds, rest1, hsp⟩ : ∃ ds rest1, digitSpan (x :: t) = (ds, rest1) := ⟨_, _, rfl⟩
        have hdec : x :: t = ds ++ rest1 := by
          have h0 := digitSpan_decomp (x :: t)
          rw [hsp] at h0
          exact h0
        cases rest1 with
        | nil =>
          -- the digit run reaches the end of `a`, then hits `c`
          have hdec' : x :: t = ds := by simpa using hdec
          have hall : ∀ y ∈ x :: t, isDigitC y = true := by
            intro y hy
            apply digitSpan_fst_digits (x :: t)
            rw [hsp]
            exact hdec' ▸ hy
          have hspl : digitSpan ((x :: t) ++ c :: b) = (x :: t, c :: b) :=
            digitSpan_stop _ _ hall (by simp [headNotDigit, hc])
          have hspr : digitSpan ((x :: t) ++ [c]) = (x :: t, [c]) :=
            digitSpan_stop _ _ hall (by simp [headNotDigit, hc])
          exact hihT (scanStep_nodot hx hspl hdot) (scanStep_nodot hx hspr hdot)
        | cons d r2 =>
          have hr1 : (digitSpan (x :: t)).2 ≠ [] := by
            rw [hsp]
            simp
          have hspl : digitSpan ((x :: t) ++ c :: b) = (ds, d :: (r2 ++ c :: b)) := by
            rw [digitSpan_append_of_ne_nil (x :: t) (c :: b) hr1, hsp]
            rfl
          have hspr : digitSpan ((x :: t) ++ [c]) = (ds, d :: (r2 ++ [c])) := by
            rw [digitSpan_append_of_ne_nil (x :: t) [c] hr1, hsp]
            rfl
          by_cases hd : d = '.'
          · subst hd
            obtain ⟨fs, rr, hsp2⟩ : ∃ fs rr, digitSpan r2 = (fs, rr) := ⟨_, _, rfl⟩
            have hr2dec : r2 = fs ++ rr := by
              have h0 := digitSpan_decomp r2
              rw [hsp2] at h0
              exact h0
            -- spans of the fraction run extended to the right
            have hsp2l : rr = [] → digitSpan (r2 ++ c :: b) = (r2, c :: b) := by
              intro hrr
              subst hrr
              have hfsall : ∀ y ∈ r2, isDigitC y = true := by
                intro y hy
                apply digitSpan_fst_digits r2
                rw [hsp2]
                have h2' : r2 = fs := by simpa using hr2dec
                exact h2' ▸ hy
              exact digitSpan_stop _ _ hfsall (by simp [headNotDigit, hc])
            have hsp2r : rr = [] → digitSpan (r2 ++ [c]) = (r2, [c]) := by
              intro hrr
              subst hrr
              have hfsall : ∀ y ∈ r2, isDigitC y = true := by
                intro y hy
                apply digitSpan_fst_digits r2
                rw [hsp2]
                have h2' : r2 = fs := by simpa using hr2dec
                exact h2' ▸ hy
              exact digitSpan_stop _ _ hfsall (by simp [headNotDigit, hc])
            by_cases hfs3 : 3 ≤ fs.length
            · cases rr with
              | nil =>
                -- the fraction run reaches the end of `a`: the match eats all
                -- of `a` on both sides
                have h2' : r2 = fs := by simpa using hr2dec
                have hstepl : scanStep x (t ++ c :: b) =
                    some (format2Chars (mantissa ds r2), c :: b) :=
                  scanStep_match hx hspl (hsp2l rfl) (by rw [h2']; exact hfs3)
                have hstepr : scanStep x (t ++ [c]) =
                    some (format2Chars (mantissa ds r2), [c]) :=
                  scanStep_match hx hspr (hsp2r rfl) (by rw [h2']; exact hfs3)
                show ftwcScan (x :: (t ++ c :: b)) =
                  ftwcScan (x :: (t ++ [c])) ++ ftwcScan b
                rw [ftwcScan_cons_some x (t ++ c :: b) hstepl,
                  ftwcScan_cons_some x (t ++ [c]) hstepr,
                  ftwcScan_cons_none c b (scanStep_nondigit hc),
                  ftwcScan_cons_none c [] (scanStep_nondigit hc), ftwcScan_nil]
                simp
              | cons u us =>
                -- the match ends strictly inside `a`; recurse on the shorter
                -- remainder
                have hrr2 : (digitSpan r2).2 ≠ [] := by
                  rw [hsp2]
                  simp
                have hsp2l' : digitSpan (r2 ++ c :: b) = (fs, u :: (us ++ c :: b)) := by
                  rw [digitSpan_append_of_ne_nil r2 (c :: b) hrr2, hsp2]
                  rfl
                have hsp2r' : digitSpan (r2 ++ [c]) = (fs, u :: (us ++ [c])) := by
                  rw [digitSpan_append_of_ne_nil r2 [c] hrr2, hsp2]
                  rfl
                have hstepl : scanStep x (t ++ c :: b) =
                    some (format2Chars (mantissa ds fs), (u :: us) ++ c :: b) :=
                  scanStep_match hx hspl hsp2l' hfs3
                have hstepr : scanStep x (t ++ [c]) =
                    some (format2Chars (mantissa ds fs), (u :: us) ++ [c]) :=
                  scanStep_match hx hspr hsp2r' hfs3
                have hlt : (u :: us).length < n := by
                  have hc1 := congrArg List.length hdec
                  have hc2 := congrArg List.length hr2dec
                  simp only [List.length_append, List.length_cons] at hc1 hc2
                  simp only [List.length_cons] at hlen ⊢
                  omega
                show ftwcScan (x :: (t ++ c :: b)) =
                  ftwcScan (x :: (t ++ [c])) ++ ftwcScan b
                rw [ftwcScan_cons_some x (t ++ c :: b) hstepl,
                  ftwcScan_cons_some x (t ++ [c]) hstepr,
                  ih (u :: us).length hlt (u :: us) c b (le_refl _) hc hdot]
                simp
            · -- too few fraction digits: both sides fall through
              have hstepl : scanStep x (t ++ c :: b) = none := by
                cases rr with
                | nil =>
                  have h2' : r2 = fs := by simpa using hr2dec
                  exact scanStep_short hx hspl (hsp2l rfl) (by rw [h2']; omega)
                | cons u us =>
                  have hrr2 : (digitSpan r2).2 ≠ [] := by
                    rw [hsp2]
                    simp
                  have hsp2l' : digitSpan (r2 ++ c :: b) = (fs, u :: (us ++ c :: b)) := by
                    rw [digitSpan_append_of_ne_nil r2 (c :: b) hrr2, hsp2]
                    rfl
                  exact scanStep_short hx hspl hsp2l' (by omega)
              have hstepr : scanStep x (t ++ [c]) = none := by
                cases rr with
                | nil =>
                  have h2' : r2 = fs := by simpa using hr2dec
                  exact scanStep_short hx hspr (hsp2r rfl) (by rw [h2']; omega)
                | cons u us =>
                  have hrr2 : (digitSpan r2).2 ≠ [] := by
                    rw [hsp2]
                    simp
                  have hsp2r' : digitSpan (r2 ++ [c]) = (fs, u :: (us ++ [c])) := by
                    rw [digitSpan_append_of_ne_nil r2 [c] hrr2, hsp2]
                    rfl
                  exact scanStep_short hx hspr hsp2r' (by omega)
              exact hihT hstepl hstepr
          · exact hihT (scanStep_nodot hx hspl hd) (scanStep_nodot hx hspr hd)
      · have hx' : isDigitC x = false := by simpa using hx
        exact hihT (scanStep_nondigit hx') (scanStep_nondigit hx')

/-! ## C7 -/

/-- C7: `format_text_with_currency` returns non-string values unchanged;
on strings, the scanner leaves digit-free text, bare integers, and decimals
with at most two fraction digits unchanged, rewrites every number with
three or more fraction digits to its two-decimal rendering, and treats the
text left and right of any single non-digit non-dot character independently
(so multiple occurrences in one string are rewritten independently). -/
theorem C7_normalize_embedded :
    (∀ v : Val, (∀ s, v ≠ .str s) → formatTextWithCurrency v = v) ∧
    (∀ l : List Char, (∀ c ∈ l, isDigitC c = false) → ftwcScan l = l) ∧
    (∀ l : List Char, l ≠ [] → (∀ c ∈ l, isDigitC c = true) → ftwcScan l = l) ∧
    (∀ ds fs : List Char, ds ≠ [] → (∀ c ∈ ds, isDigitC c = true) → fs ≠ [] →
      (∀ c ∈ fs, isDigitC c = true) → fs.length ≤ 2 →
      ftwcScan (ds ++ '.' :: fs) = ds ++ '.' :: fs) ∧
    (∀ ds fs : List Char, ds ≠ [] → (∀ c ∈ ds, isDigitC c = true) →
      (∀ c ∈ fs, isDigitC c = true) → 3 ≤ fs.length →
      ftwcScan (ds ++ '.' :: fs) = format2Chars (mantissa ds fs)) ∧
    (∀ (a : List Char) (c : Char) (b : List Char), isDigitC c = false → c ≠ '.' →
      ftwcScan (a ++ c :: b) = ftwcScan (a ++ [c]) ++ ftwcScan b) := by
  refine ⟨?_, ftwcScan_no_digits, fun l _ h => ftwcScan_all_digits l h,
    ftwcScan_short_decimal, ftwcScan_long_decimal,
    fun a c b hc hdot => ftwcScan_split a.length a c b (le_refl _) hc hdot⟩
  intro v hv
  cases v with
  | str s => exact absurd rfl (hv s)
  | bool b => rfl
  | int n => rfl
  | num q => rfl
  | null => rfl
  | list vs => rfl
  | obj kvs => rfl

/-- Witness for C7: concrete instances of each conjunct, including the
spec's own example string. -/
theorem C7_witness :
    formatTextWithCurrency (Val.int 7) = Val.int 7 ∧
    ftwcScan (['1', '2'] ++ '.' :: ['3', '4', '5', '6']) =
      format2Chars (mantissa ['1', '2'] ['3', '4', '5', '6']) ∧
    ftwcScan (['1', '0'] ++ '.' :: ['1']) = ['1', '0'] ++ '.' :: ['1'] ∧
    ftwcScan ((['a', 'b'] : List Char) ++ ' ' :: ['1', '0']) =
      ftwcScan (['a', 'b'] ++ [' ']) ++ ftwcScan ['1', '0'] ∧
    ftwcStr "Amount is 1234.5678 and 10.1" = "Amount is 1234.57 and 10.1" := by
  refine ⟨C7_normalize_embedded.1 (Val.int 7) (fun s h => Val.noConfusion h),
    C7_normalize_embedded.2.2.2.2.1 ['1', '2'] ['3', '4', '5', '6']
      (by decide) (by decide) (by decide) (by decide),
    C7_normalize_embedded.2.2.2.1 ['1', '0'] ['1']
      (by decide) (by decide) (by decide) (by decide) (by decide),
    C7_normalize_embedded.2.2.2.2.2 ['a', 'b'] ' ' ['1', '0'] (by decide) (by decide),
    by rfl⟩

/-- Witness for C8 at concrete inputs: a float, a comma-separated numeric
string, and an unparseable string. -/
theorem C8_witness :
    formatCurrency (formatCurrency (.num (mkRat 105 1))) = formatCurrency (.num (mkRat 105 1)) ∧
    formatCurrency (formatCurrency (.str "1,234.5")) = formatCurrency (.str "1,234.5") ∧
    formatCurrency (.str "hello") = .str "hello" :=
  ⟨C8_idempotent.1 (mkRat 105 1),
   C8_idempotent.2.2.1 "1,234.5" (mkRat 2469 2) (by rfl),
   C8_idempotent.2.2.2 "hello" (by rfl)⟩

end BSA
